import Mathlib

/-!
Verification of the differential-privacy notebook and the PyTorch training
notebook of this repository.

The differential-privacy notebook builds "leave-one-out" parallel databases
from a single boolean vector `ori_vec = (torch.rand(5000) > 0.5)`:

* `db = torch.cat((ori_vec[0:i], ori_vec[i+1::]), 0)` removes record `i`;
* `random_seq_index = torch.LongTensor(5000).random_(0, 5000)` draws 5000
  leave-out indices with replacement;
* the loop appends `new_db.unsqueeze(0)` for each drawn index and the final
  `torch.cat(randomized_db)` stacks the rows into a `[5000, 4999]` tensor.

One-dimensional tensors are modelled as `List Bool` (the original vector is
boolean), two-dimensional tensors as `List (List Bool)` (a list of rows).
Python slicing `v[0:i]` is `List.take i v` and `v[i+1:]` is
`List.drop (i+1) v`; both clamp out-of-range bounds exactly as slicing does.
`torch.cat` along dimension 0 is list append / flatten, and
`new_db.unsqueeze(0)` wraps a vector into a one-row matrix `[new_db]`.
-/

/-- Embedding of `torch.cat((ori_vec[0:i], ori_vec[i+1::]), 0)`: the
leave-one-out database dropping record `i` of vector `v`. -/
def leaveOneOut {α : Type} (v : List α) (i : Nat) : List α :=
  v.take i ++ v.drop (i + 1)

/-- Embedding of the earlier slicing loop `for i in range(n): db = ori_vec[0:i]`:
the value held by `db` after the loop finishes (`none` when the loop body never
ran). -/
def sliceLoopFinal {α : Type} (v : List α) (n : Nat) : Option (List α) :=
  (List.range n).foldl (fun _ i => some (v.take i)) none

/-- Embedding of the list `randomized_db` built by the construction loop: for
each drawn index `seq`, the unsqueezed row `[leaveOneOut v seq]` (a `[1, n-1]`
matrix) is appended. -/
def randomized_db {α : Type} (v : List α) (idxs : List Nat) : List (List (List α)) :=
  idxs.map (fun seq => [leaveOneOut v seq])

/-- Embedding of `randomized_db_torch = torch.cat(randomized_db)`: the stacked
tensor whose rows are the constructed databases. -/
def randomized_db_torch {α : Type} (v : List α) (idxs : List Nat) : List (List α) :=
  (randomized_db v idxs).flatten

theorem randomized_db_torch_eq_map {α : Type} (v : List α) (idxs : List Nat) :
    randomized_db_torch v idxs = idxs.map (leaveOneOut v) := by
  unfold randomized_db_torch randomized_db
  induction idxs with
  | nil => rfl
  | cons a t ih => simp only [List.map_cons, List.flatten_cons] at ih ⊢; simp [ih]

theorem leaveOneOut_eq_eraseIdx {α : Type} (v : List α) (i : Nat) :
    leaveOneOut v i = v.eraseIdx i :=
  (List.eraseIdx_eq_take_drop_succ v i).symm

theorem leaveOneOut_length {α : Type} (v : List α) (i : Nat) (h : i < v.length) :
    (leaveOneOut v i).length = v.length - 1 := by
  rw [leaveOneOut_eq_eraseIdx, List.length_eraseIdx]
  simp [h]

/-- C1: for every vector `v` of length `n` and every index `i < n`, the
construction `torch.cat((v[0:i], v[i+1:]), 0)` returns a vector of length
`n - 1` whose element `j` is `v[j]` for `j < i` and `v[j+1]` for `j ≥ i`;
that is, exactly `v` with record `i` removed and the rest in order. -/
theorem leaveOneOut_spec {α : Type} (v : List α) (i : Nat) (h : i < v.length) :
    (leaveOneOut v i).length = v.length - 1 ∧
    (∀ j, j < i → (leaveOneOut v i)[j]? = v[j]?) ∧
    (∀ j, i ≤ j → j < v.length - 1 → (leaveOneOut v i)[j]? = v[j + 1]?) ∧
    leaveOneOut v i = v.eraseIdx i := by
  refine ⟨leaveOneOut_length v i h, ?_, ?_, leaveOneOut_eq_eraseIdx v i⟩
  · intro j hj
    unfold leaveOneOut
    rw [List.getElem?_append]
    have hlen : (v.take i).length = i := by
      rw [List.length_take]; omega
    rw [if_pos (by omega), List.getElem?_take]
    rw [if_pos hj]
  · intro j hij hj
    unfold leaveOneOut
    rw [List.getElem?_append]
    have hlen : (v.take i).length = i := by
      rw [List.length_take]; omega
    rw [if_neg (by omega), List.getElem?_drop, hlen]
    congr 1
    omega

/-- Witness for C1 at `v = [true, false, true]`, `i = 1`. -/
theorem leaveOneOut_spec_witness :
    (leaveOneOut [true, false, true] 1).length = [true, false, true].length - 1 :=
  (leaveOneOut_spec [true, false, true] 1 (by decide)).1

theorem sliceLoopFinal_eq {α : Type} (v : List α) (n : Nat) (h : 1 ≤ n) :
    sliceLoopFinal v n = some (v.take (n - 1)) := by
  obtain ⟨m, rfl⟩ : ∃ m, n = m + 1 := ⟨n - 1, by omega⟩
  unfold sliceLoopFinal
  rw [List.range_succ, List.foldl_append]
  simp

/-- C9: the leave-one-out construction is total at the boundary indices: for a
vector `v` of length `n ≥ 1` it returns the suffix `v[1:]` at `i = 0` and the
prefix `v[0:n-1]` at `i = n-1`, both of length `n - 1`, with every index
`i < n` in range; and the final value of the earlier slicing loop
`db = ori_vec[0:i]` equals the leave-one-out database for the last index. -/
theorem leaveOneOut_boundary {α : Type} (v : List α) (h : 1 ≤ v.length) :
    leaveOneOut v 0 = v.drop 1 ∧
    leaveOneOut v (v.length - 1) = v.take (v.length - 1) ∧
    (leaveOneOut v 0).length = v.length - 1 ∧
    (leaveOneOut v (v.length - 1)).length = v.length - 1 ∧
    (∀ i, i < v.length → (leaveOneOut v i).length = v.length - 1) ∧
    sliceLoopFinal v v.length = some (leaveOneOut v (v.length - 1)) := by
  have hlast : leaveOneOut v (v.length - 1) = v.take (v.length - 1) := by
    unfold leaveOneOut
    rw [List.drop_of_length_le (by omega), List.append_nil]
  refine ⟨by simp [leaveOneOut], hlast, ?_, ?_, fun i hi => leaveOneOut_length v i hi, ?_⟩
  · exact leaveOneOut_length v 0 h
  · exact leaveOneOut_length v (v.length - 1) (by omega)
  · rw [sliceLoopFinal_eq v v.length h, hlast]

/-- Witness for C9 at `v = [true, false]`. -/
theorem leaveOneOut_boundary_witness :
    leaveOneOut [true, false] 0 = ([true, false] : List Bool).drop 1 :=
  (leaveOneOut_boundary [true, false] (by decide)).1

/-- C2: over an original vector of length 5000, the construction produces
exactly 5000 databases, each of length 4999, and the stacked tensor has 5000
rows of length 4999 (shape `[5000, 4999]`); moreover the number of databases
equals the length of the index sequence, whatever indices were drawn. -/
theorem parallel_db_shape (v : List Bool) (idxs : List Nat)
    (hv : v.length = 5000) (hn : idxs.length = 5000)
    (hb : ∀ i ∈ idxs, i < 5000) :
    (randomized_db v idxs).length = 5000 ∧
    (∀ db ∈ randomized_db_torch v idxs, db.length = 4999) ∧
    (randomized_db_torch v idxs).length = 5000 ∧
    (∀ idxs2 : List Nat, (randomized_db v idxs2).length = idxs2.length) := by
  refine ⟨by simp [randomized_db, hn], ?_, ?_, fun idxs2 => by simp [randomized_db]⟩
  · intro db hdb
    rw [randomized_db_torch_eq_map] at hdb
    obtain ⟨i, hi, rfl⟩ := List.mem_map.mp hdb
    have : i < v.length := by rw [hv]; exact hb i hi
    rw [leaveOneOut_length v i this, hv]
  · rw [randomized_db_torch_eq_map]
    simp [hn]

/-- Witness for C2 at `v = replicate 5000 true`, `idxs = replicate 5000 0`. -/
theorem parallel_db_shape_witness :
    (randomized_db (List.replicate 5000 true) (List.replicate 5000 0)).length = 5000 :=
  (parallel_db_shape (List.replicate 5000 true) (List.replicate 5000 0)
    (by rw [List.length_replicate]) (by rw [List.length_replicate])
    (fun i hi => by rw [List.eq_of_mem_replicate hi]; omega)).1

theorem leaveOneOut_sublist {α : Type} (v : List α) (i : Nat) :
    (leaveOneOut v i).Sublist v := by
  have h1 : (v.drop (i + 1)).Sublist (v.drop i) := by
    have := List.drop_sublist 1 (v.drop i)
    rwa [List.drop_drop] at this
  have h2 : (v.take i ++ v.drop (i + 1)).Sublist (v.take i ++ v.drop i) :=
    h1.append_left (v.take i)
  rw [List.take_append_drop] at h2
  exact h2

/-- C3: every constructed parallel database is an order-preserving subsequence
of the original vector; each of its entries is an entry of the original,
nothing is altered or added and no noise is applied, and every entry of every
constructed database is a boolean (`true` or `false`, i.e. 1 or 0). -/
theorem parallel_db_subsequence (v : List Bool) (idxs : List Nat)
    (db : List Bool) (hdb : db ∈ randomized_db_torch v idxs) :
    db.Sublist v ∧ (∀ x ∈ db, x ∈ v) ∧ (∀ x ∈ db, x = true ∨ x = false) := by
  rw [randomized_db_torch_eq_map] at hdb
  obtain ⟨i, _, rfl⟩ := List.mem_map.mp hdb
  have hsub := leaveOneOut_sublist v i
  exact ⟨hsub, fun x hx => hsub.subset hx, fun x _ => by cases x <;> simp⟩

/-- Witness for C3 at `v = [true, false]`, `idxs = [0]`, `db = [false]`. -/
theorem parallel_db_subsequence_witness :
    ([false] : List Bool).Sublist [true, false] :=
  (parallel_db_subsequence [true, false] [0] [false] (by decide)).1

/-- C4: for every `k < 5000`, row `k` of the stacked tensor equals the
leave-one-out database at index `random_seq_index[k]`: unsqueezing each
database to a one-row matrix and concatenating along dimension 0 keeps every
database unchanged as the corresponding row, in drawing order. -/
theorem stacked_row_eq (v : List Bool) (idxs : List Nat) (k : Nat)
    (hn : idxs.length = 5000) (hk : k < 5000) :
    ∃ i, idxs[k]? = some i ∧
      (randomized_db_torch v idxs)[k]? = some (leaveOneOut v i) ∧
      (randomized_db v idxs)[k]? = some [leaveOneOut v i] := by
  have hk' : k < idxs.length := by omega
  refine ⟨idxs.get ⟨k, hk'⟩, List.getElem?_eq_getElem hk', ?_, ?_⟩
  · rw [randomized_db_torch_eq_map]
    simp [List.getElem?_eq_getElem hk']
  · unfold randomized_db
    simp [List.getElem?_eq_getElem hk']

/-- Witness for C4 at `v = [true]`, `idxs = replicate 5000 0`, `k = 0`. -/
theorem stacked_row_eq_witness :
    ∃ i, (List.replicate 5000 0)[0]? = some i ∧
      (randomized_db_torch [true] (List.replicate 5000 0))[0]? =
        some (leaveOneOut [true] i) ∧
      (randomized_db [true] (List.replicate 5000 0))[0]? =
        some [leaveOneOut [true] i] :=
  stacked_row_eq [true] (List.replicate 5000 0) 0 (by rw [List.length_replicate]) (by omega)

/-- C5: because the 5000 leave-out indices are drawn with replacement from
`[0, 5000)`, the collection need not contain all distinct leave-one-out
databases: there is an admissible index sequence for which two databases are
built from the same index (so two rows of the stacked tensor are equal,
whatever the original vector is) while some record is left out of no database
at all. -/
theorem replacement_sampling_gap :
    ∃ idxs : List Nat, idxs.length = 5000 ∧ (∀ i ∈ idxs, i < 5000) ∧
      (∃ k l : Nat, k ≠ l ∧ k < 5000 ∧ l < 5000 ∧ idxs[k]? = idxs[l]? ∧
        ∀ v : List Bool,
          (randomized_db_torch v idxs)[k]? = (randomized_db_torch v idxs)[l]?) ∧
      (∃ r, r < 5000 ∧ ∀ i ∈ idxs, i ≠ r) := by
  refine ⟨List.replicate 5000 0, by rw [List.length_replicate],
    fun i hi => by rw [List.eq_of_mem_replicate hi]; omega,
    ⟨0, 1, by omega, by omega, by omega, ?_, ?_⟩, 1, by omega,
    fun i hi => by rw [List.eq_of_mem_replicate hi]; omega⟩
  · rw [List.getElem?_replicate, List.getElem?_replicate]
    norm_num
  · intro v
    rw [randomized_db_torch_eq_map]
    rw [List.getElem?_map, List.getElem?_map, List.getElem?_replicate, List.getElem?_replicate]
    norm_num

/-- Small-step model of the construction loop `for seq in random_seq_index:`,
relating the remaining index sequence and the accumulated `randomized_db`
list to the final accumulated list: each step appends the unsqueezed
leave-one-out database for the next drawn index. -/
inductive LoopRun (v : List Bool) :
    List Nat → List (List (List Bool)) → List (List (List Bool)) → Prop
  | done (acc : List (List (List Bool))) : LoopRun v [] acc acc
  | step (seq : Nat) (rest : List Nat) (acc out : List (List (List Bool)))
      (h : LoopRun v rest (acc ++ [[leaveOneOut v seq]]) out) :
      LoopRun v (seq :: rest) acc out

theorem loopRun_out {v : List Bool} {idxs : List Nat}
    {acc out : List (List (List Bool))} (h : LoopRun v idxs acc out) :
    out = acc ++ randomized_db v idxs := by
  induction h with
  | done acc => simp [randomized_db]
  | step seq rest acc out _ ih =>
    rw [ih]
    simp [randomized_db]

/-- C6: the construction is deterministic in its inputs: for a fixed original
vector and a fixed sequence of leave-out indices, any two runs of the
construction loop from the empty accumulator produce the same collection of
databases and the same stacked tensor, equal to the functional description. -/
theorem construction_deterministic (v : List Bool) (idxs : List Nat)
    (out₁ out₂ : List (List (List Bool)))
    (h₁ : LoopRun v idxs [] out₁) (h₂ : LoopRun v idxs [] out₂) :
    out₁ = out₂ ∧ out₁.flatten = out₂.flatten ∧
    out₁ = randomized_db v idxs ∧ out₁.flatten = randomized_db_torch v idxs := by
  have e₁ := loopRun_out h₁
  have e₂ := loopRun_out h₂
  rw [List.nil_append] at e₁ e₂
  subst e₁
  subst e₂
  exact ⟨rfl, rfl, rfl, rfl⟩

/-- Witness for C6: a run of the loop at `v = [true]`, `idxs = [0]`. -/
theorem construction_deterministic_witness :
    ([] ++ [[leaveOneOut [true] 0]] : List (List (List Bool))) =
      randomized_db [true] [0] :=
  (construction_deterministic [true] [0] _ _
    (LoopRun.step 0 [] [] _ (LoopRun.done _))
    (LoopRun.step 0 [] [] _ (LoopRun.done _))).2.2.1

/-- Program state of the differential-privacy notebook during the construction
loop: the original vector `ori_vec` and the list `randomized_db` accumulated
so far. Slicing, `torch.cat` and `unsqueeze` allocate fresh tensors, so the
loop body only ever writes the accumulator. -/
structure DpState where
  ori_vec : List Bool
  randomized_db_acc : List (List (List Bool))

/-- Body of the construction loop for one drawn index `seq`:
`randomized_db.append(torch.cat((ori_vec[0:seq], ori_vec[seq+1::]), 0).unsqueeze(0))`. -/
def constructStep (s : DpState) (seq : Nat) : DpState :=
  { s with randomized_db_acc := s.randomized_db_acc ++ [[leaveOneOut s.ori_vec seq]] }

/-- The whole construction loop `for seq in random_seq_index: ...` run over the
program state. -/
def constructLoop (s : DpState) (idxs : List Nat) : DpState :=
  idxs.foldl constructStep s

theorem constructLoop_ori_vec (s : DpState) (idxs : List Nat) :
    (constructLoop s idxs).ori_vec = s.ori_vec := by
  induction idxs generalizing s with
  | nil => rfl
  | cons a t ih => rw [constructLoop, List.foldl_cons, ← constructLoop, ih]; rfl

/-- C10: constructing the parallel databases leaves the original vector
unchanged: after the loop (and hence after the final concatenation, which
reads only the accumulator), `ori_vec` still has length 5000 and the same
entries as before. -/
theorem construction_preserves_ori_vec (s : DpState) (idxs : List Nat)
    (h : s.ori_vec.length = 5000) :
    (constructLoop s idxs).ori_vec = s.ori_vec ∧
    (constructLoop s idxs).ori_vec.length = 5000 ∧
    (∀ j : Nat, ((constructLoop s idxs).ori_vec)[j]? = s.ori_vec[j]?) ∧
    (constructLoop s idxs).randomized_db_acc =
      s.randomized_db_acc ++ randomized_db s.ori_vec idxs := by
  have e := constructLoop_ori_vec s idxs
  refine ⟨e, by rw [e, h], fun j => by rw [e], ?_⟩
  induction idxs generalizing s with
  | nil => simp [constructLoop, randomized_db]
  | cons a t ih =>
    rw [constructLoop, List.foldl_cons, ← constructLoop]
    rw [ih (constructStep s a) (by rw [constructStep]; exact h)
      (constructLoop_ori_vec (constructStep s a) t)]
    simp [constructStep, randomized_db]

/-- Witness for C10 at `s = ⟨replicate 5000 true, []⟩`, `idxs = [0]`. -/
theorem construction_preserves_ori_vec_witness :
    (constructLoop ⟨List.replicate 5000 true, []⟩ [0]).ori_vec =
      List.replicate 5000 true :=
  (construction_preserves_ori_vec ⟨List.replicate 5000 true, []⟩ [0]
    (by rw [List.length_replicate])).1

/-!
The training notebook `Part 3 - Training Neural Networks (Exercises)` builds
`model = nn.Sequential(nn.Linear(784, 128), nn.ReLU(), nn.Linear(128, 64),
nn.ReLU(), nn.Linear(64, 10), nn.LogSoftmax(dim=1))`, `criterion = nn.NLLLoss()`
and `optimizer = optim.SGD(model.parameters(), lr=0.003)`, then trains with

  for e in range(epochs):
      for images, labels in trainloader:
          optimizer.zero_grad()
          images = images.view(images.shape[0], -1)
          out = model.forward(images)
          loss = criterion(out, labels)
          loss.backward()
          optimizer.step()

The framework calls are opaque, so the loop is embedded as the sequence of
framework events it issues, and the network as row-wise list functions.
-/

/-- Framework calls issued by the body of the training loop. -/
inductive TrainEvent : Type
  | zeroGrad
  | flattenImages
  | forwardPass
  | computeLoss
  | backwardPass
  | optimizerStep
deriving DecidableEq

/-- Events of one batch iteration, in the order the body issues them:
`optimizer.zero_grad()`, `images.view(...)`, `model.forward(images)`,
`criterion(out, labels)`, `loss.backward()`, `optimizer.step()`. -/
def batchTrace : List TrainEvent :=
  [TrainEvent.zeroGrad, TrainEvent.flattenImages, TrainEvent.forwardPass,
   TrainEvent.computeLoss, TrainEvent.backwardPass, TrainEvent.optimizerStep]

/-- Events issued by the whole training run: `epochs` epochs, each running the
batch body once per batch delivered by `trainloader`. -/
def trainTrace (epochs numBatches : Nat) : List TrainEvent :=
  (List.range epochs).flatMap (fun _ => (List.range numBatches).flatMap (fun _ => batchTrace))

theorem flatMap_const {α β : Type} (xs : List β) (l : List α) :
    xs.flatMap (fun _ => l) = (List.replicate xs.length l).flatten := by
  induction xs with
  | nil => rfl
  | cons a t ih => simp only [List.flatMap_cons, List.length_cons, List.replicate_succ,
      List.flatten_cons, ih]

theorem length_flatten_replicate {α : Type} (k : Nat) (l : List α) :
    ((List.replicate k l).flatten).length = k * l.length := by
  induction k with
  | zero => simp
  | succ m ih =>
    rw [List.replicate_succ, List.flatten_cons, List.length_append, ih]
    ring

theorem flatten_replicate_mul {α : Type} (m n : Nat) (l : List α) :
    (List.replicate m ((List.replicate n l).flatten)).flatten =
      (List.replicate (m * n) l).flatten := by
  induction m with
  | zero => simp
  | succ k ih =>
    rw [List.replicate_succ, List.flatten_cons, ih]
    have : (k + 1) * n = n + k * n := by ring
    rw [this, List.replicate_add, List.flatten_append]

theorem trainTrace_eq (epochs nb : Nat) :
    trainTrace epochs nb = (List.replicate (epochs * nb) batchTrace).flatten := by
  unfold trainTrace
  rw [flatMap_const, flatMap_const, List.length_range, List.length_range,
    flatten_replicate_mul]

theorem flatten_replicate_getElem {α : Type} (M p : Nat) (l : List α)
    (hp : p < M * l.length) :
    ((List.replicate M l).flatten)[p]? = l[p % l.length]? := by
  induction M generalizing p with
  | zero => omega
  | succ m ih =>
    rw [List.replicate_succ, List.flatten_cons, List.getElem?_append]
    by_cases hc : p < l.length
    · rw [if_pos hc, Nat.mod_eq_of_lt hc]
    · rw [if_neg hc]
      have hlt : p - l.length < m * l.length := by
        have : (m + 1) * l.length = m * l.length + l.length := by ring
        omega
      rw [ih (p - l.length) hlt]
      congr 1
      conv_rhs => rw [show p = (p - l.length) + l.length by omega]
      rw [Nat.add_mod_right]

theorem trainTrace_getElem (epochs nb p : Nat) (hp : p < epochs * nb * 6) :
    (trainTrace epochs nb)[p]? = batchTrace[p % 6]? := by
  rw [trainTrace_eq]
  have : p < epochs * nb * batchTrace.length := hp
  rw [flatten_replicate_getElem (epochs * nb) p batchTrace this]
  rfl

theorem trainTrace_length (epochs nb : Nat) :
    (trainTrace epochs nb).length = epochs * nb * 6 := by
  rw [trainTrace_eq, length_flatten_replicate]
  rfl

/-- C7: each iteration of the training loop performs, for every batch, the
documented steps in order — zero the gradients, flatten the images, forward
pass, loss, backward pass, optimizer step: the events of batch `k` are exactly
`batchTrace`, and every `optimizer.step()` in the whole run is immediately
preceded by the `loss.backward()` of the same batch (position 5 of its batch,
right after position 4), so no weight update happens before that batch's
backward pass. -/
theorem training_loop_order (epochs nb k : Nat) (hk : k < epochs * nb) :
    ((trainTrace epochs nb).drop (6 * k)).take 6 = batchTrace ∧
    (∀ p, (trainTrace epochs nb)[p]? = some TrainEvent.optimizerStep →
      p % 6 = 5 ∧ (trainTrace epochs nb)[p - 1]? = some TrainEvent.backwardPass) := by
  constructor
  · rw [trainTrace_eq]
    have hsplit : epochs * nb = k + (epochs * nb - k) := by omega
    rw [hsplit, List.replicate_add, List.flatten_append]
    have hlen : ((List.replicate k batchTrace).flatten).length = 6 * k := by
      rw [length_flatten_replicate]; simp [batchTrace]; ring
    rw [← hlen, List.drop_left]
    obtain ⟨m, hm⟩ : ∃ m, epochs * nb - k = m + 1 := ⟨epochs * nb - k - 1, by omega⟩
    rw [hm, List.replicate_succ, List.flatten_cons]
    have : (6 : Nat) = batchTrace.length := rfl
    rw [this, List.take_left]
  · intro p hp
    have hplen : p < epochs * nb * 6 := by
      by_contra hge
      rw [List.getElem?_eq_none (by rw [trainTrace_length]; omega)] at hp
      exact Option.noConfusion hp
    rw [trainTrace_getElem epochs nb p hplen] at hp
    have hmod : p % 6 = 5 := by
      have h6 : p % 6 < 6 := Nat.mod_lt p (by omega)
      interval_cases h : p % 6 <;> first
        | rfl
        | exact absurd hp (by decide)
    refine ⟨hmod, ?_⟩
    have hp1 : p - 1 < epochs * nb * 6 := by omega
    rw [trainTrace_getElem epochs nb (p - 1) hp1]
    have : (p - 1) % 6 = 4 := by omega
    rw [this]
    rfl

/-- Witness for C7 at `epochs = 1`, `numBatches = 1`, `k = 0`. -/
theorem training_loop_order_witness :
    ((trainTrace 1 1).drop (6 * 0)).take 6 = batchTrace :=
  (training_loop_order 1 1 0 (by omega)).1

/-- Dot product of a weight row with an input vector (the framework's
`F.linear` inner product; zipping truncates at the shorter list, which never
happens for well-shaped inputs). -/
def dot (w x : List ℚ) : ℚ :=
  ((w.zip x).map (fun p => p.1 * p.2)).sum

/-- Embedding of `nn.Linear(inF, outF)` applied to a batch: each input row `x`
is mapped to `x Wᵀ + b`, one output feature per weight row / bias entry. -/
def linearLayer (w : List (List ℚ)) (b : List ℚ) (batch : List (List ℚ)) :
    List (List ℚ) :=
  batch.map (fun x => (w.zip b).map (fun wb => dot wb.1 x + wb.2))

/-- Embedding of `nn.ReLU()` applied to a batch: `max 0` entrywise. -/
def reluLayer (batch : List (List ℚ)) : List (List ℚ) :=
  batch.map (fun row => row.map (fun x => max x 0))

/-- Embedding of `nn.LogSoftmax(dim=1)` applied to a batch: it subtracts the
row's log-sum-exp from every entry of the row. The transcendental log-sum-exp
is computed inside the framework, so it is a parameter `lse` here; the shape
behaviour is the same for every `lse`. -/
def logSoftmaxLayer (lse : List ℚ → ℚ) (batch : List (List ℚ)) :
    List (List ℚ) :=
  batch.map (fun row => row.map (fun x => x - lse row))

/-- Embedding of `model = nn.Sequential(nn.Linear(784, 128), nn.ReLU(),
nn.Linear(128, 64), nn.ReLU(), nn.Linear(64, 10), nn.LogSoftmax(dim=1))`
with its six parameter tensors. -/
def mlpModel (lse : List ℚ → ℚ) (w1 : List (List ℚ)) (b1 : List ℚ)
    (w2 : List (List ℚ)) (b2 : List ℚ) (w3 : List (List ℚ)) (b3 : List ℚ)
    (batch : List (List ℚ)) : List (List ℚ) :=
  logSoftmaxLayer lse
    (linearLayer w3 b3
      (reluLayer (linearLayer w2 b2
        (reluLayer (linearLayer w1 b1 batch)))))

theorem linearLayer_shape (w : List (List ℚ)) (b : List ℚ)
    (batch : List (List ℚ)) :
    (linearLayer w b batch).length = batch.length ∧
    ∀ r ∈ linearLayer w b batch, r.length = min w.length b.length := by
  refine ⟨by simp [linearLayer], ?_⟩
  intro r hr
  obtain ⟨x, _, rfl⟩ := List.mem_map.mp hr
  simp [List.length_zip]

theorem reluLayer_shape (batch : List (List ℚ)) :
    (reluLayer batch).length = batch.length ∧
    ∀ r ∈ reluLayer batch, ∃ x ∈ batch, r.length = x.length := by
  refine ⟨by simp [reluLayer], ?_⟩
  intro r hr
  obtain ⟨x, hx, rfl⟩ := List.mem_map.mp hr
  exact ⟨x, hx, by simp⟩

theorem logSoftmaxLayer_shape (lse : List ℚ → ℚ) (batch : List (List ℚ)) :
    (logSoftmaxLayer lse batch).length = batch.length ∧
    ∀ r ∈ logSoftmaxLayer lse batch, ∃ x ∈ batch, r.length = x.length := by
  refine ⟨by simp [logSoftmaxLayer], ?_⟩
  intro r hr
  obtain ⟨x, hx, rfl⟩ := List.mem_map.mp hr
  exact ⟨x, hx, by simp⟩

/-- C8: the feed-forward classifier `nn.Sequential(Linear(784,128), ReLU,
Linear(128,64), ReLU, Linear(64,10), LogSoftmax(dim=1))` maps every batch of
`B ≥ 1` input vectors of dimension 784 to a batch of `B` output vectors of
dimension 10. -/
theorem mlp_shape (lse : List ℚ → ℚ) (w1 : List (List ℚ)) (b1 : List ℚ)
    (w2 : List (List ℚ)) (b2 : List ℚ) (w3 : List (List ℚ)) (b3 : List ℚ)
    (batch : List (List ℚ)) (B : Nat) (hB1 : 1 ≤ B)
    (hB : batch.length = B) (hin : ∀ r ∈ batch, r.length = 784)
    (hw1 : w1.length = 128) (hb1 : b1.length = 128)
    (hw2 : w2.length = 64) (hb2 : b2.length = 64)
    (hw3 : w3.length = 10) (hb3 : b3.length = 10) :
    (mlpModel lse w1 b1 w2 b2 w3 b3 batch).length = B ∧
    ∀ r ∈ mlpModel lse w1 b1 w2 b2 w3 b3 batch, r.length = 10 := by
  unfold mlpModel
  set s1 := linearLayer w1 b1 batch with hs1
  set s2 := reluLayer s1 with hs2
  set s3 := linearLayer w2 b2 s2 with hs3
  set s4 := reluLayer s3 with hs4
  set s5 := linearLayer w3 b3 s4 with hs5
  constructor
  · rw [(logSoftmaxLayer_shape lse s5).1, (linearLayer_shape w3 b3 s4).1,
      (reluLayer_shape s3).1, (linearLayer_shape w2 b2 s2).1,
      (reluLayer_shape s1).1, (linearLayer_shape w1 b1 batch).1, hB]
  · intro r hr
    obtain ⟨x5, hx5, he5⟩ := (logSoftmaxLayer_shape lse s5).2 r hr
    have h5 := (linearLayer_shape w3 b3 s4).2 x5 hx5
    rw [he5, h5, hw3, hb3]
    rfl

/-- Witness for C8 at `B = 1` with all-zero parameters and input. -/
theorem mlp_shape_witness :
    (mlpModel (fun _ => 0)
      (List.replicate 128 (List.replicate 784 0)) (List.replicate 128 0)
      (List.replicate 64 (List.replicate 128 0)) (List.replicate 64 0)
      (List.replicate 10 (List.replicate 64 0)) (List.replicate 10 0)
      [List.replicate 784 0]).length = 1 :=
  (mlp_shape (fun _ => 0)
    (List.replicate 128 (List.replicate 784 0)) (List.replicate 128 0)
    (List.replicate 64 (List.replicate 128 0)) (List.replicate 64 0)
    (List.replicate 10 (List.replicate 64 0)) (List.replicate 10 0)
    [List.replicate 784 0] 1 (by omega) rfl
    (fun r hr => by rw [List.mem_singleton] at hr; rw [hr, List.length_replicate])
    (by rw [List.length_replicate]) (by rw [List.length_replicate])
    (by rw [List.length_replicate]) (by rw [List.length_replicate])
    (by rw [List.length_replicate]) (by rw [List.length_replicate])).1
